import Mathlib

/-!
Verification of the hdfs-log-reader batch-loading pipeline (src/main.rs).

The pipeline streams newline-delimited JSON log records, groups valid
records into fixed-size batches, and hands each batch to a database sink.
This file shallowly embeds the pipeline: the line source is a list of
per-line read results (`Except` models `io::Result`), the parser models
`serde_json::from_str::<LogEntry>` on the JSON fragment relevant to the
claims (objects, arrays, strings with basic escapes, integer numbers,
booleans, null; floats and `\u` escapes are outside the model), the sink
is an oracle saying whether each insert call succeeds, and the driver loop
of `process_hdfs_logs` is an explicit fold over parse outcomes.
-/

/-- `LogEntry` from src/main.rs: `timestamp: i64`, `severity_text: String`,
`body: String`, `tenant_id: i32`. Machine integers are embedded as `Int`
with explicit range checks where the deserializer enforces them. -/
structure LogEntry where
  timestamp : Int
  severity_text : String
  body : String
  tenant_id : Int
deriving DecidableEq, Repr

/-- JSON values as produced by the text parser. Numbers are restricted to
integers: a float literal in the input is a parse error in this model,
while `serde_json` would parse it and then fail the `i64`/`i32` type check
for the fields the claims are about, so the claim-relevant outcome (error)
agrees. -/
inductive Json where
  | null
  | bool (b : Bool)
  | num (n : Int)
  | str (s : String)
  | arr (elems : List Json)
  | obj (fields : List (String × Json))
deriving Repr

/-- Skip JSON whitespace. -/
def skipWs : List Char → List Char
  | [] => []
  | c :: cs =>
    if c = ' ' ∨ c = '\n' ∨ c = '\t' ∨ c = '\r' then skipWs cs else c :: cs

/-- Parse the body of a JSON string after the opening quote, handling the
basic escapes; returns the decoded characters and the rest of the input. -/
def parseStringBody : List Char → Except String (List Char × List Char)
  | [] => Except.error "unterminated string"
  | c :: cs =>
    if c = '"' then Except.ok ([], cs)
    else if c = '\\' then
      match cs with
      | [] => Except.error "unterminated escape"
      | e :: cs2 =>
        let esc : Except String Char :=
          if e = '"' then Except.ok '"'
          else if e = '\\' then Except.ok '\\'
          else if e = '/' then Except.ok '/'
          else if e = 'n' then Except.ok '\n'
          else if e = 't' then Except.ok '\t'
          else if e = 'r' then Except.ok '\r'
          else Except.error "unsupported escape"
        match esc with
        | Except.error m => Except.error m
        | Except.ok ch =>
          match parseStringBody cs2 with
          | Except.ok (rest, rem) => Except.ok (ch :: rest, rem)
          | Except.error m => Except.error m
    else
      match parseStringBody cs with
      | Except.ok (rest, rem) => Except.ok (c :: rest, rem)
      | Except.error m => Except.error m

/-- Take the leading run of decimal digits. -/
def takeDigits : List Char → List Char × List Char
  | [] => ([], [])
  | c :: cs =>
    if c.isDigit then
      let r := takeDigits cs
      (c :: r.1, r.2)
    else ([], c :: cs)

/-- Numeric value of a digit run. -/
def digitsVal (ds : List Char) : Nat :=
  ds.foldl (fun a c => a * 10 + (c.toNat - 48)) 0

/-- Parse a JSON integer number (optional minus, digits); float and
exponent forms are rejected (see `Json`). -/
def parseNumber (cs : List Char) : Except String (Json × List Char) :=
  let signSplit : Bool × List Char :=
    match cs with
    | c :: rest => if c = '-' then (true, rest) else (false, cs)
    | [] => (false, cs)
  match takeDigits signSplit.2 with
  | ([], _) => Except.error "invalid number"
  | (ds, rest) =>
    let bad : Bool :=
      match rest with
      | c :: _ => c = '.' ∨ c = 'e' ∨ c = 'E'
      | [] => false
    if bad then Except.error "unsupported number form"
    else
      let n : Int := Int.ofNat (digitsVal ds)
      Except.ok (Json.num (if signSplit.1 then -n else n), rest)

mutual

/-- Parse one JSON value; `fuel` bounds recursion and exceeds any input of
length below it. -/
def parseValue : Nat → List Char → Except String (Json × List Char)
  | 0, _ => Except.error "out of fuel"
  | fuel + 1, cs =>
    match skipWs cs with
    | [] => Except.error "unexpected end of input"
    | c :: rest =>
      if c = '\x7b' then
        match skipWs rest with
        | '\x7d' :: rem => Except.ok (Json.obj [], rem)
        | _ => parseMembers fuel rest []
      else if c = '[' then
        match skipWs rest with
        | ']' :: rem => Except.ok (Json.arr [], rem)
        | _ => parseElems fuel rest []
      else if c = '"' then
        match parseStringBody rest with
        | Except.ok (chars, rem) => Except.ok (Json.str (String.mk chars), rem)
        | Except.error m => Except.error m
      else if c = 't' then
        match rest with
        | 'r' :: 'u' :: 'e' :: rem => Except.ok (Json.bool true, rem)
        | _ => Except.error "invalid literal"
      else if c = 'f' then
        match rest with
        | 'a' :: 'l' :: 's' :: 'e' :: rem => Except.ok (Json.bool false, rem)
        | _ => Except.error "invalid literal"
      else if c = 'n' then
        match rest with
        | 'u' :: 'l' :: 'l' :: rem => Except.ok (Json.null, rem)
        | _ => Except.error "invalid literal"
      else parseNumber (c :: rest)

/-- Parse the members of a JSON object after the opening brace. -/
def parseMembers : Nat → List Char → List (String × Json) → Except String (Json × List Char)
  | 0, _, _ => Except.error "out of fuel"
  | fuel + 1, cs, acc =>
    match skipWs cs with
    | '"' :: rest =>
      match parseStringBody rest with
      | Except.error m => Except.error m
      | Except.ok (nameChars, rem) =>
        match skipWs rem with
        | ':' :: rem2 =>
          match parseValue fuel rem2 with
          | Except.error m => Except.error m
          | Except.ok (v, rem3) =>
            let acc2 := acc ++ [(String.mk nameChars, v)]
            match skipWs rem3 with
            | ',' :: rem4 => parseMembers fuel rem4 acc2
            | '\x7d' :: rem4 => Except.ok (Json.obj acc2, rem4)
            | _ => Except.error "expected comma or end of object"
        | _ => Except.error "expected colon"
    | _ => Except.error "expected string key"

/-- Parse the elements of a JSON array after the opening bracket. -/
def parseElems : Nat → List Char → List Json → Except String (Json × List Char)
  | 0, _, _ => Except.error "out of fuel"
  | fuel + 1, cs, acc =>
    match parseValue fuel cs with
    | Except.error m => Except.error m
    | Except.ok (v, rem) =>
      match skipWs rem with
      | ',' :: rem2 => parseElems fuel rem2 (acc ++ [v])
      | ']' :: rem2 => Except.ok (Json.arr (acc ++ [v]), rem2)
      | _ => Except.error "expected comma or end of array"

end

/-- Parse a whole line of text into a JSON value, requiring the input to be
fully consumed up to trailing whitespace, as `serde_json::from_str` does. -/
def parseJson (s : String) : Except String Json :=
  match parseValue (s.length + 1) s.data with
  | Except.ok (j, rest) =>
    if (skipWs rest).isEmpty then Except.ok j
    else Except.error "trailing characters"
  | Except.error e => Except.error e

/-- Accumulated field slots while deserializing a `LogEntry` object:
timestamp, severity_text, body, tenant_id. -/
abbrev FieldSlots := Option Int × Option String × Option String × Option Int

/-- Process one object member the way the serde-derived `Deserialize` for
`LogEntry` does: a known field is stored (duplicate or wrongly-typed known
fields are errors, with `i64`/`i32` range enforced), an unknown field is
ignored because `LogEntry` does not opt into `deny_unknown_fields`. -/
def readField (st : FieldSlots) (name : String) (v : Json) : Except String FieldSlots :=
  if name = "timestamp" then
    match st.1 with
    | some _ => Except.error "duplicate field timestamp"
    | none =>
      match v with
      | Json.num n =>
        if -(2 ^ 63) ≤ n ∧ n < 2 ^ 63 then Except.ok (some n, st.2.1, st.2.2.1, st.2.2.2)
        else Except.error "number out of range for timestamp"
      | _ => Except.error "invalid type for timestamp"
  else if name = "severity_text" then
    match st.2.1 with
    | some _ => Except.error "duplicate field severity_text"
    | none =>
      match v with
      | Json.str s => Except.ok (st.1, some s, st.2.2.1, st.2.2.2)
      | _ => Except.error "invalid type for severity_text"
  else if name = "body" then
    match st.2.2.1 with
    | some _ => Except.error "duplicate field body"
    | none =>
      match v with
      | Json.str s => Except.ok (st.1, st.2.1, some s, st.2.2.2)
      | _ => Except.error "invalid type for body"
  else if name = "tenant_id" then
    match st.2.2.2 with
    | some _ => Except.error "duplicate field tenant_id"
    | none =>
      match v with
      | Json.num n =>
        if -(2 ^ 31) ≤ n ∧ n < 2 ^ 31 then Except.ok (st.1, st.2.1, st.2.2.1, some n)
        else Except.error "number out of range for tenant_id"
      | _ => Except.error "invalid type for tenant_id"
  else Except.ok st

/-- Fold `readField` over the members of an object, in order. -/
def collectFields : FieldSlots → List (String × Json) → Except String FieldSlots
  | st, [] => Except.ok st
  | st, (name, v) :: rest =>
    match readField st name v with
    | Except.error m => Except.error m
    | Except.ok st2 => collectFields st2 rest

/-- Deserialize a JSON value into a `LogEntry`, following the derived serde
semantics: the value must be an object, every required field must be
present exactly once with the right type, extra fields are ignored. -/
def deserializeLogEntry : Json → Except String LogEntry
  | Json.obj fields =>
    match collectFields (none, none, none, none) fields with
    | Except.error m => Except.error m
    | Except.ok (some ts, some sev, some bod, some tid) => Except.ok ⟨ts, sev, bod, tid⟩
    | Except.ok (none, _, _, _) => Except.error "missing field timestamp"
    | Except.ok (_, none, _, _) => Except.error "missing field severity_text"
    | Except.ok (_, _, none, _) => Except.error "missing field body"
    | Except.ok (_, _, _, none) => Except.error "missing field tenant_id"
  | _ => Except.error "invalid type: expected struct LogEntry"

/-- `serde_json::from_str::<LogEntry>` on one line of text. -/
def parseLogEntry (s : String) : Except String LogEntry :=
  match parseJson s with
  | Except.error e => Except.error e
  | Except.ok j => deserializeLogEntry j

/-- The valid line of the spec's two-line scenario (§8). -/
def goodLine : String :=
  "\x7b\"timestamp\":1,\"severity_text\":\"INFO\",\"body\":\"a\",\"tenant_id\":7\x7d"

/-- The record the scenario line parses to. -/
def goodEntry : LogEntry := ⟨1, "INFO", "a", 7⟩

/-- One step of the iterator built in `read_hdfs_logs`: a line read either
failed at the I/O level (`Error reading line i+1`) or is text handed to
`serde_json` (`Error parsing JSON at line i+1` on failure), with 1-based
line numbers from `enumerate()`. -/
def readOutcome : Nat × Except String String → Except String LogEntry
  | (i, Except.error e) =>
    Except.error ("Error reading line " ++ toString (i + 1) ++ ": " ++ e)
  | (i, Except.ok line) =>
    match parseLogEntry line with
    | Except.ok entry => Except.ok entry
    | Except.error e =>
      Except.error ("Error parsing JSON at line " ++ toString (i + 1) ++ ": " ++ e)

/-- `read_hdfs_logs` after the file opened: `lines().enumerate().take(max_rows
.unwrap_or(usize::MAX)).map(...)`. The input is the sequence of per-line read
results; `max_rows = None` consumes the whole (finite) file. -/
def read_hdfs_logs (maxRows : Option Nat) (lines : List (Except String String)) :
    List (Except String LogEntry) :=
  let limited :=
    match maxRows with
    | none => lines.enum
    | some m => lines.enum.take m
  limited.map readOutcome

/-- The SQL text built by `insert_hdfs_logs_batch`. -/
def insertSql (tableName : String) : String :=
  "INSERT INTO " ++ tableName ++
    " (timestamp, severity_text, body, tenant_id) VALUES (?, ?, ?, ?)"

/-- The parameter tuples `insert_hdfs_logs_batch` binds: one per record of
the batch, in batch order, fields positionally. -/
def insertParams (logs : List LogEntry) : List (Int × String × String × Int) :=
  logs.map fun log => (log.timestamp, log.severity_text, log.body, log.tenant_id)

/-- Number of `?` placeholders in a piece of SQL text. -/
def placeholderCount (sql : String) : Nat :=
  sql.data.count '?'

/-- Mutable state of the driver loop in `process_hdfs_logs`: the current
batch vector, the two counters, plus the observable history — the batches
the sink confirmed (in order) and the per-line errors printed to stderr
(in order). -/
structure RunState where
  batch : List LogEntry
  totalInserted : Nat
  totalRead : Nat
  batches : List (List LogEntry)
  reported : List String
deriving DecidableEq, Repr

/-- Driver state at entry of the loop. -/
def initState : RunState := ⟨[], 0, 0, [], []⟩

/-- The `for log_result in log_iter` loop of `process_hdfs_logs`. The sink
oracle says whether the i-th insert call (0-based) succeeds; on failure the
`?` operator aborts the run, carrying the state at failure (the failed
batch still buffered, `total_inserted` untouched) and the outcomes the
loop never consumed. -/
def runLoop (B : Nat) (sink : Nat → Bool) :
    RunState → List (Except String LogEntry) →
    Except (RunState × List (Except String LogEntry)) RunState
  | st, [] => Except.ok st
  | st, r :: rs =>
    match r with
    | Except.error e =>
      runLoop B sink { st with reported := st.reported ++ [e] } rs
    | Except.ok entry =>
      let st1 : RunState :=
        { st with batch := st.batch ++ [entry], totalRead := st.totalRead + 1 }
      if B ≤ st1.batch.length then
        if sink st1.batches.length then
          runLoop B sink
            { st1 with
              batch := [],
              totalInserted := st1.totalInserted + st1.batch.length,
              batches := st1.batches ++ [st1.batch] } rs
        else Except.error (st1, rs)
      else runLoop B sink st1 rs

/-- `process_hdfs_logs` after connection and table setup: run the loop over
the parse outcomes, then flush the remaining batch if it is non-empty. -/
def process (B : Nat) (maxRows : Option Nat) (sink : Nat → Bool)
    (lines : List (Except String String)) :
    Except (RunState × List (Except String LogEntry)) RunState :=
  let outs := read_hdfs_logs maxRows lines
  match runLoop B sink initState outs with
  | Except.error f => Except.error f
  | Except.ok st =>
    if st.batch.isEmpty then Except.ok st
    else if sink st.batches.length then
      Except.ok
        { st with
          totalInserted := st.totalInserted + st.batch.length,
          batches := st.batches ++ [st.batch] }
    else Except.error (st, [])

/-- The records of the parse outcomes that are valid, in order. -/
def validRecords (outs : List (Except String LogEntry)) : List LogEntry :=
  outs.filterMap fun r =>
    match r with
    | Except.ok e => some e
    | Except.error _ => none

/-- The error messages of the failed parse outcomes, in order. -/
def failMessages (outs : List (Except String LogEntry)) : List String :=
  outs.filterMap fun r =>
    match r with
    | Except.ok _ => none
    | Except.error e => some e

/-- Specification-side accumulator: starting from a partially filled batch
`acc`, split `l` into the full batches the loop would flush (first
component) and the final still-buffered remainder (second component). -/
def fullChunks (B : Nat) (acc : List LogEntry) : List LogEntry → List (List LogEntry) × List LogEntry
  | [] => ([], acc)
  | x :: xs =>
    if B ≤ (acc ++ [x]).length then
      let r := fullChunks B [] xs
      ((acc ++ [x]) :: r.1, r.2)
    else fullChunks B (acc ++ [x]) xs

/-- All batches a run over `l` hands to the sink: the full ones plus the
final partial one when it is non-empty. -/
def chunkBatches (B : Nat) (acc : List LogEntry) (l : List LogEntry) : List (List LogEntry) :=
  let r := fullChunks B acc l
  if r.2.isEmpty then r.1 else r.1 ++ [r.2]

/-- Total size of a list of batches. -/
def sizeSum (cs : List (List LogEntry)) : Nat :=
  (cs.map List.length).sum

theorem fullChunks_nil (B : Nat) (acc : List LogEntry) : fullChunks B acc [] = ([], acc) := rfl

theorem fullChunks_cons (B : Nat) (acc : List LogEntry) (x : LogEntry) (xs : List LogEntry) :
    fullChunks B acc (x :: xs) =
      if B ≤ (acc ++ [x]).length then
        ((acc ++ [x]) :: (fullChunks B [] xs).1, (fullChunks B [] xs).2)
      else fullChunks B (acc ++ [x]) xs := rfl

theorem sizeSum_nil : sizeSum [] = 0 := rfl

theorem sizeSum_cons (c : List LogEntry) (cs : List (List LogEntry)) :
    sizeSum (c :: cs) = c.length + sizeSum cs := by
  simp [sizeSum]

/-- Conservation: the sizes of the flushed batches plus the remainder
account for everything accumulated. -/
theorem fullChunks_sizes (B : Nat) :
    ∀ (l acc : List LogEntry),
      sizeSum (fullChunks B acc l).1 + (fullChunks B acc l).2.length =
        acc.length + l.length := by
  intro l
  induction l with
  | nil => intro acc; simp [fullChunks_nil, sizeSum_nil]
  | cons x xs ih =>
    intro acc
    rw [fullChunks_cons]
    by_cases h : B ≤ (acc ++ [x]).length
    · rw [if_pos h]
      have := ih []
      simp only [sizeSum_cons] at *
      simp at this ⊢
      omega
    · rw [if_neg h]
      have := ih (acc ++ [x])
      simp at this ⊢
      omega

/-- Concatenating the flushed batches and the remainder recovers the input. -/
theorem fullChunks_join (B : Nat) :
    ∀ (l acc : List LogEntry),
      (fullChunks B acc l).1.flatten ++ (fullChunks B acc l).2 = acc ++ l := by
  intro l
  induction l with
  | nil => intro acc; simp [fullChunks_nil]
  | cons x xs ih =>
    intro acc
    rw [fullChunks_cons]
    by_cases h : B ≤ (acc ++ [x]).length
    · rw [if_pos h]
      have := ih []
      simp at this ⊢
      simp [this]
    · rw [if_neg h]
      have := ih (acc ++ [x])
      simp at this ⊢
      simp [this]

/-- Every flushed batch is exactly full, and the remainder is shorter than
the capacity, provided the starting buffer is. -/
theorem fullChunks_full (B : Nat) :
    ∀ (l acc : List LogEntry), acc.length < B →
      (∀ c ∈ (fullChunks B acc l).1, c.length = B) ∧
        (fullChunks B acc l).2.length < B := by
  intro l
  induction l with
  | nil => intro acc hacc; simp [fullChunks_nil]; exact hacc
  | cons x xs ih =>
    intro acc hacc
    rw [fullChunks_cons]
    by_cases h : B ≤ (acc ++ [x]).length
    · rw [if_pos h]
      have hB : 0 < B := Nat.lt_of_le_of_lt (Nat.zero_le _) hacc
      have hlen : (acc ++ [x]).length = B := by
        simp at h ⊢; omega
      have := ih [] (by simpa using hB)
      constructor
      · intro c hc
        rcases List.mem_cons.mp hc with h1 | h1
        · rw [h1]; exact hlen
        · exact this.1 c h1
      · exact this.2
    · rw [if_neg h]
      exact ih (acc ++ [x]) (by simp at h ⊢; omega)

/-- Every flushed batch is non-empty. -/
theorem fullChunks_ne_nil (B : Nat) :
    ∀ (l acc : List LogEntry), ∀ c ∈ (fullChunks B acc l).1, c ≠ [] := by
  intro l
  induction l with
  | nil => intro acc c hc; simp [fullChunks_nil] at hc
  | cons x xs ih =>
    intro acc c hc
    rw [fullChunks_cons] at hc
    by_cases h : B ≤ (acc ++ [x]).length
    · rw [if_pos h] at hc
      rcases List.mem_cons.mp hc with h1 | h1
      · subst h1; simp
      · exact ih [] c h1
    · rw [if_neg h] at hc
      exact ih (acc ++ [x]) c hc

/-- When everything fits below the capacity, nothing is flushed. -/
theorem fullChunks_small (B : Nat) :
    ∀ (l acc : List LogEntry), (acc ++ l).length < B →
      fullChunks B acc l = ([], acc ++ l) := by
  intro l
  induction l with
  | nil => intro acc h; simp [fullChunks_nil]
  | cons x xs ih =>
    intro acc h
    rw [fullChunks_cons]
    have hlt : ¬ B ≤ (acc ++ [x]).length := by
      simp at h ⊢; omega
    rw [if_neg hlt]
    have := ih (acc ++ [x]) (by simp at h ⊢; omega)
    simpa using this

/-- With capacity 0 (accepted without validation), every record is flushed
by itself. -/
theorem fullChunks_zero :
    ∀ l : List LogEntry, fullChunks 0 [] l = (l.map fun x => [x], []) := by
  intro l
  induction l with
  | nil => rfl
  | cons x xs ih =>
    rw [fullChunks_cons, if_pos (Nat.zero_le _)]
    simp [ih]

/-- A list of full batches has total size capacity times count. -/
theorem sizeSum_full (B : Nat) :
    ∀ cs : List (List LogEntry), (∀ c ∈ cs, c.length = B) →
      sizeSum cs = B * cs.length := by
  intro cs
  induction cs with
  | nil => intro _; simp [sizeSum_nil]
  | cons c cs ih =>
    intro h
    rw [sizeSum_cons, ih (fun d hd => h d (List.mem_cons_of_mem _ hd)),
      h c (List.mem_cons_self _ _), List.length_cons]
    ring

/-- The number of batches a run over `l` emits is `⌈l.length / B⌉`. -/
theorem chunkBatches_count (B : Nat) (hB : 1 ≤ B) (l : List LogEntry) :
    (chunkBatches B [] l).length = (l.length + B - 1) / B := by
  have hfull := fullChunks_full B l [] (by simpa using hB)
  have hsz0 := fullChunks_sizes B l []
  rw [sizeSum_full B _ hfull.1] at hsz0
  have hsz : B * (fullChunks B [] l).1.length + (fullChunks B [] l).2.length
      = l.length := by simpa using hsz0
  unfold chunkBatches
  by_cases hempty : (fullChunks B [] l).2.isEmpty
  · rw [if_pos hempty]
    have hr0 : (fullChunks B [] l).2.length = 0 := by
      rw [List.isEmpty_iff] at hempty
      simp [hempty]
    have hlen : l.length = B * (fullChunks B [] l).1.length := by omega
    rw [hlen]
    have h1 : B * (fullChunks B [] l).1.length + B - 1 =
        (B - 1) + B * (fullChunks B [] l).1.length := by omega
    rw [h1, Nat.add_mul_div_left _ _ (by omega : 0 < B),
      Nat.div_eq_of_lt (by omega), Nat.zero_add]
  · rw [if_neg hempty]
    have hr1 : 1 ≤ (fullChunks B [] l).2.length := by
      rcases h2 : (fullChunks B [] l).2 with _ | ⟨a, as⟩
      · rw [h2] at hempty; simp at hempty
      · simp
    have hrB : (fullChunks B [] l).2.length < B := hfull.2
    rw [List.length_append, List.length_cons, List.length_nil]
    have hlen : l.length = B * (fullChunks B [] l).1.length +
        (fullChunks B [] l).2.length := by omega
    rw [hlen]
    have h1 : B * (fullChunks B [] l).1.length + (fullChunks B [] l).2.length + B - 1 =
        ((fullChunks B [] l).2.length - 1) + B * ((fullChunks B [] l).1.length + 1) := by
      have h2 : B * ((fullChunks B [] l).1.length + 1) =
          B * (fullChunks B [] l).1.length + B := by ring
      omega
    rw [h1, Nat.add_mul_div_left _ _ (by omega : 0 < B),
      Nat.div_eq_of_lt (by omega)]

    omega

theorem validRecords_nil : validRecords [] = [] := rfl

theorem validRecords_cons_ok (e : LogEntry) (rs : List (Except String LogEntry)) :
    validRecords (Except.ok e :: rs) = e :: validRecords rs := by
  simp [validRecords, List.filterMap_cons]

theorem validRecords_cons_error (m : String) (rs : List (Except String LogEntry)) :
    validRecords (Except.error m :: rs) = validRecords rs := by
  simp [validRecords, List.filterMap_cons]

theorem failMessages_nil : failMessages [] = [] := rfl

theorem failMessages_cons_ok (e : LogEntry) (rs : List (Except String LogEntry)) :
    failMessages (Except.ok e :: rs) = failMessages rs := by
  simp [failMessages, List.filterMap_cons]

theorem failMessages_cons_error (m : String) (rs : List (Except String LogEntry)) :
    failMessages (Except.error m :: rs) = m :: failMessages rs := by
  simp [failMessages, List.filterMap_cons]

/-- Characterization of the driver loop when every insert succeeds: the
final state is determined by the valid records (chunked from the buffer the
loop started with) and the failed outcomes (reported in order). -/
theorem runLoop_allOk (B : Nat) :
    ∀ (outs : List (Except String LogEntry)) (st : RunState),
      runLoop B (fun _ => true) st outs =
        Except.ok
          { batch := (fullChunks B st.batch (validRecords outs)).2,
            totalInserted :=
              st.totalInserted + sizeSum (fullChunks B st.batch (validRecords outs)).1,
            totalRead := st.totalRead + (validRecords outs).length,
            batches := st.batches ++ (fullChunks B st.batch (validRecords outs)).1,
            reported := st.reported ++ failMessages outs } := by
  intro outs
  induction outs with
  | nil =>
    intro st
    simp [runLoop, validRecords_nil, failMessages_nil, fullChunks_nil, sizeSum_nil]
  | cons r rs ih =>
    intro st
    cases r with
    | error e =>
      have hstep : runLoop B (fun _ => true) st (Except.error e :: rs) =
          runLoop B (fun _ => true) { st with reported := st.reported ++ [e] } rs := by
        simp [runLoop]
      rw [hstep, ih, validRecords_cons_error, failMessages_cons_error]
      simp
    | ok entry =>
      by_cases h : B ≤ (st.batch ++ [entry]).length
      · have h1 : B ≤ st.batch.length + 1 := by simpa using h
        have hstep : runLoop B (fun _ => true) st (Except.ok entry :: rs) =
            runLoop B (fun _ => true)
              { batch := [],
                totalInserted := st.totalInserted + (st.batch ++ [entry]).length,
                totalRead := st.totalRead + 1,
                batches := st.batches ++ [st.batch ++ [entry]],
                reported := st.reported } rs := by
          simp [runLoop, h1]
        rw [hstep, ih, validRecords_cons_ok, failMessages_cons_ok,
          fullChunks_cons, if_pos h, sizeSum_cons]
        simp
        constructor
        · omega
        · omega
      · have h1 : ¬ B ≤ st.batch.length + 1 := by simpa using h
        have hstep : runLoop B (fun _ => true) st (Except.ok entry :: rs) =
            runLoop B (fun _ => true)
              { st with batch := st.batch ++ [entry], totalRead := st.totalRead + 1 } rs := by
          simp [runLoop, h1]
        rw [hstep, ih, validRecords_cons_ok, failMessages_cons_ok,
          fullChunks_cons, if_neg h]
        simp
        omega

/-- `process_hdfs_logs` with an always-successful sink: it returns `Ok`;
both counters equal the number of valid records, the confirmed batches are
exactly the chunking of the valid records, and the reported errors are the
per-line failure messages in order. -/
theorem process_allOk (B : Nat) (maxRows : Option Nat) (lines : List (Except String String)) :
    process B maxRows (fun _ => true) lines =
      Except.ok
        { batch := (fullChunks B [] (validRecords (read_hdfs_logs maxRows lines))).2,
          totalInserted := (validRecords (read_hdfs_logs maxRows lines)).length,
          totalRead := (validRecords (read_hdfs_logs maxRows lines)).length,
          batches := chunkBatches B [] (validRecords (read_hdfs_logs maxRows lines)),
          reported := failMessages (read_hdfs_logs maxRows lines) } := by
  have hsz := fullChunks_sizes B (validRecords (read_hdfs_logs maxRows lines)) []
  simp only [List.length_nil, Nat.zero_add] at hsz
  unfold process
  dsimp only
  rw [runLoop_allOk]
  show (if ((fullChunks B initState.batch
        (validRecords (read_hdfs_logs maxRows lines))).2).isEmpty then _ else _) = _
  by_cases hempty :
      (fullChunks B [] (validRecords (read_hdfs_logs maxRows lines))).2.isEmpty
  · rw [show initState.batch = [] from rfl, if_pos hempty]
    have hr0 : (fullChunks B [] (validRecords (read_hdfs_logs maxRows lines))).2.length = 0 := by
      rw [List.isEmpty_iff] at hempty
      simp [hempty]
    simp [initState, chunkBatches, hempty]
    omega
  · rw [show initState.batch = [] from rfl, if_neg hempty]
    simp [initState, chunkBatches, hempty]
    omega

/-- The loop on a concatenation: a fatal error inside the first part leaves
the whole second part unconsumed. -/
theorem runLoop_append (B : Nat) (sink : Nat → Bool) :
    ∀ (xs ys : List (Except String LogEntry)) (st : RunState),
      runLoop B sink st (xs ++ ys) =
        match runLoop B sink st xs with
        | Except.error (st1, rem) => Except.error (st1, rem ++ ys)
        | Except.ok st1 => runLoop B sink st1 ys := by
  intro xs
  induction xs with
  | nil => intro ys st; simp [runLoop]
  | cons r rs ih =>
    intro ys st
    cases r with
    | error e =>
      have hstep : (Except.error e :: rs) ++ ys = Except.error e :: (rs ++ ys) := rfl
      rw [hstep]
      show runLoop B sink { st with reported := st.reported ++ [e] } (rs ++ ys) = _
      rw [ih]
      rfl
    | ok entry =>
      have hstep : (Except.ok entry :: rs) ++ ys = Except.ok entry :: (rs ++ ys) := rfl
      rw [hstep]
      by_cases h : B ≤ st.batch.length + 1
      · by_cases hs : sink st.batches.length
        · have hL : runLoop B sink st (Except.ok entry :: (rs ++ ys)) =
              runLoop B sink
                { batch := [],
                  totalInserted := st.totalInserted + (st.batch ++ [entry]).length,
                  totalRead := st.totalRead + 1,
                  batches := st.batches ++ [st.batch ++ [entry]],
                  reported := st.reported } (rs ++ ys) := by
            simp [runLoop, h, hs]
          have hR : runLoop B sink st (Except.ok entry :: rs) =
              runLoop B sink
                { batch := [],
                  totalInserted := st.totalInserted + (st.batch ++ [entry]).length,
                  totalRead := st.totalRead + 1,
                  batches := st.batches ++ [st.batch ++ [entry]],
                  reported := st.reported } rs := by
            simp [runLoop, h, hs]
          rw [hL, hR, ih]
        · have hL : runLoop B sink st (Except.ok entry :: (rs ++ ys)) =
              Except.error
                ({ st with batch := st.batch ++ [entry], totalRead := st.totalRead + 1 },
                  rs ++ ys) := by
            simp [runLoop, h, hs]
          have hR : runLoop B sink st (Except.ok entry :: rs) =
              Except.error
                ({ st with batch := st.batch ++ [entry], totalRead := st.totalRead + 1 },
                  rs) := by
            simp [runLoop, h, hs]
          rw [hL, hR]
      · have hL : runLoop B sink st (Except.ok entry :: (rs ++ ys)) =
            runLoop B sink
              { st with batch := st.batch ++ [entry], totalRead := st.totalRead + 1 }
              (rs ++ ys) := by
          simp [runLoop, h]
        have hR : runLoop B sink st (Except.ok entry :: rs) =
            runLoop B sink
              { st with batch := st.batch ++ [entry], totalRead := st.totalRead + 1 } rs := by
          simp [runLoop, h]
        rw [hL, hR, ih]

/-- Feeding exactly one batch worth of valid records to the loop from a
buffer that they exactly fill: one insert call is made; on success the
counters advance by the batch size, on failure the run aborts with the
failed batch still buffered and `total_inserted` untouched. -/
theorem runLoop_fill (B : Nat) (sink : Nat → Bool) (e : LogEntry) :
    ∀ (m : Nat) (st : RunState), 1 ≤ m → st.batch.length + m = B →
      runLoop B sink st (List.replicate m (Except.ok e)) =
        if sink st.batches.length then
          Except.ok
            { batch := [],
              totalInserted := st.totalInserted + B,
              totalRead := st.totalRead + m,
              batches := st.batches ++ [st.batch ++ List.replicate m e],
              reported := st.reported }
        else
          Except.error
            ({ st with
                batch := st.batch ++ List.replicate m e
                totalRead := st.totalRead + m }, []) := by
  intro m
  induction m with
  | zero => intro st h1 h2; omega
  | succ m ih =>
    intro st h1 h2
    rcases Nat.eq_zero_or_pos m with hm0 | hmpos
    · subst hm0
      have hB : B = st.batch.length + 1 := by omega
      have hflush : B ≤ st.batch.length + 1 := by omega
      by_cases hs : sink st.batches.length
      · have hstep : runLoop B sink st (List.replicate 1 (Except.ok e)) =
            runLoop B sink
              { batch := [],
                totalInserted := st.totalInserted + (st.batch ++ [e]).length,
                totalRead := st.totalRead + 1,
                batches := st.batches ++ [st.batch ++ [e]],
                reported := st.reported } [] := by
          simp [List.replicate_succ, runLoop, hflush, hs]
        rw [hstep, if_pos hs]
        show Except.ok _ = _
        simp [List.replicate_succ]
        omega
      · have hstep : runLoop B sink st (List.replicate 1 (Except.ok e)) =
            Except.error
              ({ st with batch := st.batch ++ [e], totalRead := st.totalRead + 1 }, []) := by
          simp [List.replicate_succ, runLoop, hflush, hs]
        rw [hstep, if_neg hs]
        simp [List.replicate_succ]
    · have hnoflush : ¬ B ≤ st.batch.length + 1 := by omega
      have hstep : runLoop B sink st (List.replicate (m + 1) (Except.ok e)) =
          runLoop B sink
            { st with batch := st.batch ++ [e], totalRead := st.totalRead + 1 }
            (List.replicate m (Except.ok e)) := by
        simp [List.replicate_succ, runLoop, hnoflush]
      rw [hstep, ih _ hmpos (by simp; omega)]
      by_cases hs : sink st.batches.length
      · rw [if_pos hs]
        show _ = if sink st.batches.length then _ else _
        rw [if_pos hs]
        simp [List.replicate_succ]
        omega
      · rw [if_neg hs]
        show _ = if sink st.batches.length then _ else _
        rw [if_neg hs]
        simp [List.replicate_succ]
        omega

theorem enumFrom_map_const {α β : Type} (f : Nat × α → β) (x : α) (y : β)
    (hf : ∀ i, f (i, x) = y) :
    ∀ (n k : Nat), ((List.replicate n x).enumFrom k).map f = List.replicate n y := by
  intro n
  induction n with
  | zero => intro k; rfl
  | succ n ih =>
    intro k
    rw [List.replicate_succ, List.enumFrom_cons, List.map_cons, hf k, ih (k + 1),
      List.replicate_succ]

/-- Reading a file of identical well-formed lines yields the same record at
every position. -/
theorem read_hdfs_logs_replicate (n : Nat) (s : String) (e : LogEntry)
    (h : parseLogEntry s = Except.ok e) :
    read_hdfs_logs none (List.replicate n (Except.ok s)) =
      List.replicate n (Except.ok e) := by
  unfold read_hdfs_logs
  dsimp only
  rw [List.enum]
  exact enumFrom_map_const readOutcome (Except.ok s) (Except.ok e)
    (fun i => by simp [readOutcome, h]) n 0

/-- The parse outcome at position `i` is obtained from the line at position
`i`, numbered `i + 1`. -/
theorem read_hdfs_logs_getElem (lines : List (Except String String)) (i : Nat)
    (x : Except String String) (h : lines[i]? = some x) :
    (read_hdfs_logs none lines)[i]? = some (readOutcome (i, x)) := by
  unfold read_hdfs_logs
  dsimp only
  rw [List.getElem?_map, List.getElem?_enum, h]
  rfl

theorem enumFrom_take {α : Type} :
    ∀ (l : List α) (k m : Nat), (List.enumFrom k l).take m = List.enumFrom k (l.take m) := by
  intro l
  induction l with
  | nil => intro k m; simp
  | cons x xs ih =>
    intro k m
    cases m with
    | zero => rfl
    | succ m =>
      rw [List.enumFrom_cons, List.take_succ_cons, List.take_succ_cons,
        List.enumFrom_cons, ih (k + 1) m]

/-- The `max_rows` cap truncates the line sequence itself, before parsing:
reading with a cap is reading the truncated file. -/
theorem read_hdfs_logs_take (m : Nat) (lines : List (Except String String)) :
    read_hdfs_logs (some m) lines = read_hdfs_logs none (lines.take m) := by
  unfold read_hdfs_logs
  dsimp only
  simp only [List.enum]
  rw [enumFrom_take]

theorem readField_unknown (st : FieldSlots) (name : String) (v : Json)
    (h1 : name ≠ "timestamp") (h2 : name ≠ "severity_text")
    (h3 : name ≠ "body") (h4 : name ≠ "tenant_id") :
    readField st name v = Except.ok st := by
  unfold readField
  rw [if_neg h1, if_neg h2, if_neg h3, if_neg h4]

/-- Collecting the four required fields, in declaration order, from empty
slots fills all four slots. -/
theorem collectFields_base (ts tid : Int) (sev bod : String)
    (hts : -(2 ^ 63) ≤ ts ∧ ts < 2 ^ 63) (htid : -(2 ^ 31) ≤ tid ∧ tid < 2 ^ 31) :
    collectFields (none, none, none, none)
      [("timestamp", Json.num ts), ("severity_text", Json.str sev),
        ("body", Json.str bod), ("tenant_id", Json.num tid)] =
      Except.ok (some ts, some sev, some bod, some tid) := by
  norm_num at hts htid
  simp [collectFields, readField, hts.1, hts.2, htid.1, htid.2]

/-- A successful `readField` touches only the slot named by the field. -/
theorem readField_sets (st : FieldSlots) (name : String) (v : Json) (st2 : FieldSlots)
    (h : readField st name v = Except.ok st2) :
    (st2.1 = st.1 ∨ name = "timestamp") ∧
    (st2.2.1 = st.2.1 ∨ name = "severity_text") ∧
    (st2.2.2.1 = st.2.2.1 ∨ name = "body") ∧
    (st2.2.2.2 = st.2.2.2 ∨ name = "tenant_id") := by
  unfold readField at h
  split_ifs at h with h1 h2 h3 h4
  · revert h
    rcases st.1 with _ | ts <;> rcases v with _ | b | n | s | a | o <;> intro h
    all_goals (try rw [ite_eq_iff] at h)
    all_goals (try rcases h with ⟨hc, h⟩ | ⟨hc, h⟩)
    all_goals simp at h
    all_goals (try subst h)
    all_goals simp [h1]
  · revert h
    rcases st.2.1 with _ | sev <;> rcases v with _ | b | n | s | a | o <;> intro h
    all_goals simp at h
    all_goals (try subst h)
    all_goals simp [h2]
  · revert h
    rcases st.2.2.1 with _ | bod <;> rcases v with _ | b | n | s | a | o <;> intro h
    all_goals simp at h
    all_goals (try subst h)
    all_goals simp [h3]
  · revert h
    rcases st.2.2.2 with _ | tid <;> rcases v with _ | b | n | s | a | o <;> intro h
    all_goals (try rw [ite_eq_iff] at h)
    all_goals (try rcases h with ⟨hc, h⟩ | ⟨hc, h⟩)
    all_goals simp at h
    all_goals (try subst h)
    all_goals simp [h4]
  · simp at h
    subst h
    simp

/-- Fields whose names match none of the four declared ones are ignored:
the slot state passes through unchanged (`deny_unknown_fields` is not
enabled on `LogEntry`). -/
theorem collectFields_unknown :
    ∀ (extra : List (String × Json)) (st : FieldSlots),
      (∀ p ∈ extra,
        p.1 ≠ "timestamp" ∧ p.1 ≠ "severity_text" ∧ p.1 ≠ "body" ∧ p.1 ≠ "tenant_id") →
      collectFields st extra = Except.ok st := by
  intro extra
  induction extra with
  | nil => intro st _; rfl
  | cons p rest ih =>
    intro st hn
    obtain ⟨name, v⟩ := p
    have hp := hn (name, v) (List.mem_cons_self _ _)
    show (match readField st name v with
      | Except.error m => Except.error m
      | Except.ok st2 => collectFields st2 rest) = Except.ok st
    rw [readField_unknown st name v hp.1 hp.2.1 hp.2.2.1 hp.2.2.2]
    exact ih st (fun q hq => hn q (List.mem_cons_of_mem _ hq))

theorem collectFields_append :
    ∀ (xs ys : List (String × Json)) (st : FieldSlots),
      collectFields st (xs ++ ys) =
        match collectFields st xs with
        | Except.error m => Except.error m
        | Except.ok st2 => collectFields st2 ys := by
  intro xs
  induction xs with
  | nil => intro ys st; rfl
  | cons p rest ih =>
    intro ys st
    obtain ⟨name, v⟩ := p
    have hL : collectFields st (((name, v) :: rest) ++ ys) =
        (match readField st name v with
          | Except.error m => Except.error m
          | Except.ok st2 => collectFields st2 (rest ++ ys)) := rfl
    have hR : collectFields st ((name, v) :: rest) =
        (match readField st name v with
          | Except.error m => Except.error m
          | Except.ok st2 => collectFields st2 rest) := rfl
    rw [hL, hR]
    cases hrf : readField st name v with
    | error m => rfl
    | ok st2 => exact ih ys st2

/-- A slot whose field name never occurs in the input stays untouched. -/
theorem collectFields_sets :
    ∀ (fields : List (String × Json)) (st st2 : FieldSlots),
      collectFields st fields = Except.ok st2 →
      ((∀ p ∈ fields, p.1 ≠ "timestamp") → st2.1 = st.1) ∧
      ((∀ p ∈ fields, p.1 ≠ "severity_text") → st2.2.1 = st.2.1) ∧
      ((∀ p ∈ fields, p.1 ≠ "body") → st2.2.2.1 = st.2.2.1) ∧
      ((∀ p ∈ fields, p.1 ≠ "tenant_id") → st2.2.2.2 = st.2.2.2) := by
  intro fields
  induction fields with
  | nil =>
    intro st st2 h
    have : st = st2 := by
      have h2 : Except.ok (ε := String) st = Except.ok st2 := h
      exact Except.ok.inj h2
    subst this
    exact ⟨fun _ => rfl, fun _ => rfl, fun _ => rfl, fun _ => rfl⟩
  | cons p rest ih =>
    intro st st2 h
    obtain ⟨name, v⟩ := p
    have hstep : collectFields st ((name, v) :: rest) =
        (match readField st name v with
          | Except.error m => Except.error m
          | Except.ok stm => collectFields stm rest) := rfl
    rw [hstep] at h
    cases hrf : readField st name v with
    | error m => rw [hrf] at h; cases h
    | ok stm =>
      rw [hrf] at h
      have hsets := readField_sets st name v stm hrf
      have ihm := ih stm st2 h
      refine ⟨?_, ?_, ?_, ?_⟩
      · intro hall
        have hne := (hall (name, v) (List.mem_cons_self _ _))
        rcases hsets.1 with he | he
        · rw [ihm.1 (fun q hq => hall q (List.mem_cons_of_mem _ hq)), he]
        · exact absurd he hne
      · intro hall
        have hne := (hall (name, v) (List.mem_cons_self _ _))
        rcases hsets.2.1 with he | he
        · rw [ihm.2.1 (fun q hq => hall q (List.mem_cons_of_mem _ hq)), he]
        · exact absurd he hne
      · intro hall
        have hne := (hall (name, v) (List.mem_cons_self _ _))
        rcases hsets.2.2.1 with he | he
        · rw [ihm.2.2.1 (fun q hq => hall q (List.mem_cons_of_mem _ hq)), he]
        · exact absurd he hne
      · intro hall
        have hne := (hall (name, v) (List.mem_cons_self _ _))
        rcases hsets.2.2.2 with he | he
        · rw [ihm.2.2.2 (fun q hq => hall q (List.mem_cons_of_mem _ hq)), he]
        · exact absurd he hne

/-- If any required slot ends up unfilled, deserialization reports an
error. -/
theorem deserialize_slots (fields : List (String × Json)) (st2 : FieldSlots)
    (hc : collectFields (none, none, none, none) fields = Except.ok st2)
    (hmiss : st2.1 = none ∨ st2.2.1 = none ∨ st2.2.2.1 = none ∨ st2.2.2.2 = none) :
    ∃ msg, deserializeLogEntry (Json.obj fields) = Except.error msg := by
  have hD : deserializeLogEntry (Json.obj fields) =
      (match collectFields (none, none, none, none) fields with
        | Except.error m => Except.error m
        | Except.ok (some ts, some sev, some bod, some tid) => Except.ok ⟨ts, sev, bod, tid⟩
        | Except.ok (none, _, _, _) => Except.error "missing field timestamp"
        | Except.ok (_, none, _, _) => Except.error "missing field severity_text"
        | Except.ok (_, _, none, _) => Except.error "missing field body"
        | Except.ok (_, _, _, none) => Except.error "missing field tenant_id") := rfl
  rw [hD, hc]
  obtain ⟨a, b, c, d⟩ := st2
  rcases a with _ | a <;> rcases b with _ | b <;> rcases c with _ | c <;> rcases d with _ | d <;>
    first
      | exact ⟨_, rfl⟩
      | simp_all

theorem parse_goodLine : parseLogEntry goodLine = Except.ok goodEntry := rfl

theorem parse_badLine : parseLogEntry "not json" = Except.error "invalid literal" := rfl

/-- The batches of a run, concatenated, are exactly the records fed in. -/
theorem chunkBatches_flatten (B : Nat) (l : List LogEntry) :
    (chunkBatches B [] l).flatten = l := by
  have hj := fullChunks_join B l []
  unfold chunkBatches
  by_cases he : (fullChunks B [] l).2.isEmpty
  · rw [if_pos he]
    rw [List.isEmpty_iff] at he
    rw [he] at hj
    simpa using hj
  · rw [if_neg he]
    rw [List.flatten_append]
    simpa using hj

theorem chunkBatches_ne_nil (B : Nat) (l : List LogEntry) :
    ∀ c ∈ chunkBatches B [] l, c ≠ [] := by
  intro c hc
  unfold chunkBatches at hc
  by_cases he : (fullChunks B [] l).2.isEmpty
  · rw [if_pos he] at hc
    exact fullChunks_ne_nil B l [] c hc
  · rw [if_neg he] at hc
    rcases List.mem_append.mp hc with h | h
    · exact fullChunks_ne_nil B l [] c h
    · rw [List.mem_singleton] at h
      subst h
      intro hne
      rw [hne] at he
      exact he rfl

/-- Batch shapes: all batches except possibly the last are exactly full,
and every batch has between 1 and B records. -/
theorem chunkBatches_shapes (B : Nat) (hB : 1 ≤ B) (l : List LogEntry) :
    (∀ c ∈ (chunkBatches B [] l).dropLast, c.length = B) ∧
    (∀ c ∈ chunkBatches B [] l, 1 ≤ c.length ∧ c.length ≤ B) := by
  have hfull := fullChunks_full B l [] (by simpa using hB)
  constructor
  · intro c hc
    unfold chunkBatches at hc
    by_cases he : (fullChunks B [] l).2.isEmpty
    · rw [if_pos he] at hc
      exact hfull.1 c (List.dropLast_subset _ hc)
    · rw [if_neg he, List.dropLast_concat] at hc
      exact hfull.1 c hc
  · intro c hc
    unfold chunkBatches at hc
    by_cases he : (fullChunks B [] l).2.isEmpty
    · rw [if_pos he] at hc
      rw [hfull.1 c hc]
      omega
    · rw [if_neg he] at hc
      rcases List.mem_append.mp hc with h | h
      · rw [hfull.1 c h]
        omega
      · rw [List.mem_singleton] at h
        rw [h]
        have hne : (fullChunks B [] l).2 ≠ [] := by
          intro hne
          rw [hne] at he
          exact he rfl
        exact ⟨List.length_pos.mpr hne, Nat.le_of_lt hfull.2⟩

/-- With batch size 0 every valid record is flushed alone. -/
theorem chunkBatches_zero (l : List LogEntry) :
    chunkBatches 0 [] l = l.map fun x => [x] := by
  unfold chunkBatches
  rw [fullChunks_zero l]
  simp

/-- A fatal loop error always carries a non-empty failed batch. -/
theorem runLoop_error_batch (B : Nat) (sink : Nat → Bool) :
    ∀ (outs : List (Except String LogEntry)) (st0 st : RunState)
      (rem : List (Except String LogEntry)),
      runLoop B sink st0 outs = Except.error (st, rem) → st.batch ≠ [] := by
  intro outs
  induction outs with
  | nil => intro st0 st rem h; cases h
  | cons r rs ih =>
    intro st0 st rem h
    cases r with
    | error e =>
      exact ih _ st rem h
    | ok entry =>
      by_cases hf : B ≤ st0.batch.length + 1
      · by_cases hs : sink st0.batches.length
        · have hstep : runLoop B sink st0 (Except.ok entry :: rs) =
              runLoop B sink
                { batch := [],
                  totalInserted := st0.totalInserted + (st0.batch ++ [entry]).length,
                  totalRead := st0.totalRead + 1,
                  batches := st0.batches ++ [st0.batch ++ [entry]],
                  reported := st0.reported } rs := by
            simp [runLoop, hf, hs]
          rw [hstep] at h
          exact ih _ st rem h
        · have hstep : runLoop B sink st0 (Except.ok entry :: rs) =
              Except.error
                ({ st0 with
                    batch := st0.batch ++ [entry]
                    totalRead := st0.totalRead + 1 }, rs) := by
            simp [runLoop, hf, hs]
          rw [hstep] at h
          have h2 := (Prod.mk.injEq _ _ _ _).mp (Except.error.inj h)
          rw [← h2.1]
          simp
      · have hstep : runLoop B sink st0 (Except.ok entry :: rs) =
            runLoop B sink
              { st0 with
                batch := st0.batch ++ [entry]
                totalRead := st0.totalRead + 1 } rs := by
          simp [runLoop, hf]
        rw [hstep] at h
        exact ih _ st rem h

/-- A fatal run error always carries a non-empty failed batch: the sink is
never invoked on an empty slice. -/
theorem process_error_batch (B : Nat) (maxRows : Option Nat) (sink : Nat → Bool)
    (lines : List (Except String String)) (st : RunState)
    (rem : List (Except String LogEntry))
    (h : process B maxRows sink lines = Except.error (st, rem)) : st.batch ≠ [] := by
  unfold process at h
  dsimp only at h
  cases hrun : runLoop B sink initState (read_hdfs_logs maxRows lines) with
  | error f =>
    rw [hrun] at h
    dsimp only at h
    obtain ⟨st1, rem1⟩ := f
    have h2 := (Prod.mk.injEq _ _ _ _).mp (Except.error.inj h)
    rw [← h2.1]
    exact runLoop_error_batch B sink _ initState st1 rem1 hrun
  | ok st1 =>
    rw [hrun] at h
    dsimp only at h
    by_cases he : st1.batch.isEmpty
    · rw [if_pos he] at h
      cases h
    · rw [if_neg he] at h
      by_cases hs : sink st1.batches.length
      · rw [if_pos hs] at h
        cases h
      · rw [if_neg hs] at h
        have h2 := (Prod.mk.injEq _ _ _ _).mp (Except.error.inj h)
        rw [← h2.1]
        intro hne
        rw [hne] at he
        exact he rfl

/-- An object lacking one of the four required field names fails to
deserialize. -/
theorem deserialize_missing (fields : List (String × Json)) (name : String)
    (hname : name = "timestamp" ∨ name = "severity_text" ∨ name = "body" ∨
      name = "tenant_id")
    (habs : ∀ p ∈ fields, p.1 ≠ name) :
    ∃ msg, deserializeLogEntry (Json.obj fields) = Except.error msg := by
  have hD : deserializeLogEntry (Json.obj fields) =
      (match collectFields (none, none, none, none) fields with
        | Except.error m => Except.error m
        | Except.ok (some ts, some sev, some bod, some tid) => Except.ok ⟨ts, sev, bod, tid⟩
        | Except.ok (none, _, _, _) => Except.error "missing field timestamp"
        | Except.ok (_, none, _, _) => Except.error "missing field severity_text"
        | Except.ok (_, _, none, _) => Except.error "missing field body"
        | Except.ok (_, _, _, none) => Except.error "missing field tenant_id") := rfl
  cases hc : collectFields (none, none, none, none) fields with
  | error m => exact ⟨m, by rw [hD, hc]⟩
  | ok st2 =>
    have hsets := collectFields_sets fields _ _ hc
    apply deserialize_slots fields st2 hc
    rcases hname with h | h | h | h
    · subst h
      exact Or.inl (hsets.1 habs)
    · subst h
      exact Or.inr (Or.inl (hsets.2.1 habs))
    · subst h
      exact Or.inr (Or.inr (Or.inl (hsets.2.2.1 habs)))
    · subst h
      exact Or.inr (Or.inr (Or.inr (hsets.2.2.2 habs)))

/-- C1 (counterexample): the claim asserts that on the two-line scenario
(one valid record, one malformed line, batch size 10) `totalRead = 2`.
The code increments `total_read` only in the `Ok` arm of the match in
`process_hdfs_logs`, so the malformed line is not counted: the run ends
with `totalRead = 1`, not 2. -/
theorem claim1_counterexample :
    Except.map RunState.totalRead
      (process 10 none (fun _ => true) [Except.ok goodLine, Except.ok "not json"]) ≠
      Except.ok 2 := by
  intro h
  rw [show process 10 none (fun _ => true) [Except.ok goodLine, Except.ok "not json"] =
      Except.ok
        ⟨[goodEntry], 1, 1, [[goodEntry]],
          ["Error parsing JSON at line 2: invalid literal"]⟩ from rfl] at h
  simp [Except.map] at h

/-- C1 (amended): with no infrastructure error, `totalRead` counts only the
successfully parsed lines — it equals `validRecordCount`, as does
`totalInserted`; parse-error lines are reported but counted by neither
counter. On the two-line scenario with batch size 10: one batch of one
record, `totalRead = 1`, `totalInserted = 1`. -/
theorem claim1_amended :
    (∀ (B : Nat) (maxRows : Option Nat) (lines : List (Except String String)),
      ∃ st, process B maxRows (fun _ => true) lines = Except.ok st ∧
        st.totalRead = (validRecords (read_hdfs_logs maxRows lines)).length ∧
        st.totalInserted = (validRecords (read_hdfs_logs maxRows lines)).length) ∧
    process 10 none (fun _ => true) [Except.ok goodLine, Except.ok "not json"] =
      Except.ok
        ⟨[goodEntry], 1, 1, [[goodEntry]],
          ["Error parsing JSON at line 2: invalid literal"]⟩ := by
  constructor
  · intro B maxRows lines
    exact ⟨_, process_allOk B maxRows lines, rfl, rfl⟩
  · rfl

/-- C2: for every batch size B ≥ 1 the number of emitted batches is
`⌈N / B⌉` where N counts the valid records; all batches except possibly
the last are exactly full; every batch has between 1 and B records; and an
input with no valid records emits no batch and leaves both counters 0 (so
no insert statement is issued). -/
theorem claim2_batch_shapes (B : Nat) (maxRows : Option Nat)
    (lines : List (Except String String)) (hB : 1 ≤ B) :
    ∃ st, process B maxRows (fun _ => true) lines = Except.ok st ∧
      st.batches.length =
        ((validRecords (read_hdfs_logs maxRows lines)).length + B - 1) / B ∧
      (∀ c ∈ st.batches.dropLast, c.length = B) ∧
      (∀ c ∈ st.batches, 1 ≤ c.length ∧ c.length ≤ B) ∧
      ((validRecords (read_hdfs_logs maxRows lines)).length = 0 →
        st.batches = [] ∧ st.totalRead = 0 ∧ st.totalInserted = 0) := by
  refine ⟨_, process_allOk B maxRows lines, ?_, ?_, ?_, ?_⟩
  · exact chunkBatches_count B hB _
  · exact (chunkBatches_shapes B hB _).1
  · exact (chunkBatches_shapes B hB _).2
  · intro hN
    have hnil : validRecords (read_hdfs_logs maxRows lines) = [] :=
      List.length_eq_zero.mp hN
    refine ⟨?_, hN, hN⟩
    rw [hnil]
    rfl

/-- C3: concatenating the batches handed to the sink, in emission order,
yields exactly the valid records in source line order, and the parameter
tuples bound for them follow the same order, one tuple per record with the
four fields positional. -/
theorem claim3_ordering (B : Nat) (maxRows : Option Nat)
    (lines : List (Except String String)) :
    ∃ st, process B maxRows (fun _ => true) lines = Except.ok st ∧
      st.batches.flatten = validRecords (read_hdfs_logs maxRows lines) ∧
      (st.batches.map insertParams).flatten =
        (validRecords (read_hdfs_logs maxRows lines)).map
          (fun log => (log.timestamp, log.severity_text, log.body, log.tenant_id)) := by
  refine ⟨_, process_allOk B maxRows lines, chunkBatches_flatten B _, ?_⟩
  show (List.map insertParams (chunkBatches B [] _)).flatten = _
  rw [show (insertParams : List LogEntry → List (Int × String × String × Int)) =
      List.map (fun log => (log.timestamp, log.severity_text, log.body, log.tenant_id))
    from rfl]
  rw [← List.map_flatten, chunkBatches_flatten B _]

/-- C10: the sink is never invoked on an empty batch — every confirmed
batch is non-empty, and the batch carried by a fatal insert failure is
non-empty too; with the unvalidated batch size 0 every valid record is
flushed immediately as a batch of size 1. -/
theorem claim10_nonempty_batches :
    (∀ (B : Nat) (maxRows : Option Nat) (lines : List (Except String String)),
      ∃ st, process B maxRows (fun _ => true) lines = Except.ok st ∧
        ∀ c ∈ st.batches, c ≠ []) ∧
    (∀ (maxRows : Option Nat) (lines : List (Except String String)),
      ∃ st, process 0 maxRows (fun _ => true) lines = Except.ok st ∧
        ∀ c ∈ st.batches, c.length = 1) ∧
    (∀ (B : Nat) (maxRows : Option Nat) (sink : Nat → Bool)
      (lines : List (Except String String)) (st : RunState)
      (rem : List (Except String LogEntry)),
      process B maxRows sink lines = Except.error (st, rem) → st.batch ≠ []) := by
  refine ⟨?_, ?_, ?_⟩
  · intro B maxRows lines
    exact ⟨_, process_allOk B maxRows lines, chunkBatches_ne_nil B _⟩
  · intro maxRows lines
    refine ⟨_, process_allOk 0 maxRows lines, ?_⟩
    intro c hc
    show c.length = 1
    have h0 := chunkBatches_zero (validRecords (read_hdfs_logs maxRows lines))
    rw [h0] at hc
    obtain ⟨x, _, hx⟩ := List.mem_map.mp hc
    rw [← hx]
    rfl
  · intro B maxRows sink lines st rem h
    exact process_error_batch B maxRows sink lines st rem h

/-- C4: a line whose parse fails produces a per-line error outcome tagged
with its 1-based line number and the underlying cause; the run still
completes (non-fatal), the message is reported, and the failed line
contributes to no batch — the batches concatenate to exactly the valid
records. -/
theorem claim4_parse_error (B : Nat) (lines : List (Except String String))
    (i : Nat) (s cause : String)
    (hline : lines[i]? = some (Except.ok s))
    (hparse : parseLogEntry s = Except.error cause) :
    (read_hdfs_logs none lines)[i]? =
      some (Except.error
        ("Error parsing JSON at line " ++ toString (i + 1) ++ ": " ++ cause)) ∧
    ∃ st, process B none (fun _ => true) lines = Except.ok st ∧
      ("Error parsing JSON at line " ++ toString (i + 1) ++ ": " ++ cause) ∈ st.reported ∧
      st.batches.flatten = validRecords (read_hdfs_logs none lines) := by
  have hout : (read_hdfs_logs none lines)[i]? =
      some (Except.error
        ("Error parsing JSON at line " ++ toString (i + 1) ++ ": " ++ cause)) := by
    rw [read_hdfs_logs_getElem lines i _ hline]
    simp [readOutcome, hparse]
  refine ⟨hout, _, process_allOk B none lines, ?_, chunkBatches_flatten B _⟩
  show _ ∈ failMessages (read_hdfs_logs none lines)
  have hmem : Except.error
      ("Error parsing JSON at line " ++ toString (i + 1) ++ ": " ++ cause) ∈
      read_hdfs_logs none lines := List.getElem?_mem hout
  exact List.mem_filterMap.mpr ⟨_, hmem, rfl⟩

/-- C9: an I/O failure while reading a line after the file opened is not
fatal: it surfaces as a per-line error outcome tagged with the 1-based
line number, is reported like a parse error, the line contributes no
record, and the run completes over the remaining lines. (The initial
file-open failure is the `?` before the loop and never reaches the
pipeline.) -/
theorem claim9_io_error (B : Nat) (lines : List (Except String String))
    (i : Nat) (cause : String)
    (hline : lines[i]? = some (Except.error cause)) :
    (read_hdfs_logs none lines)[i]? =
      some (Except.error
        ("Error reading line " ++ toString (i + 1) ++ ": " ++ cause)) ∧
    ∃ st, process B none (fun _ => true) lines = Except.ok st ∧
      ("Error reading line " ++ toString (i + 1) ++ ": " ++ cause) ∈ st.reported ∧
      st.batches.flatten = validRecords (read_hdfs_logs none lines) := by
  have hout : (read_hdfs_logs none lines)[i]? =
      some (Except.error
        ("Error reading line " ++ toString (i + 1) ++ ": " ++ cause)) := by
    rw [read_hdfs_logs_getElem lines i _ hline]
    rfl
  refine ⟨hout, _, process_allOk B none lines, ?_, chunkBatches_flatten B _⟩
  show _ ∈ failMessages (read_hdfs_logs none lines)
  have hmem : Except.error
      ("Error reading line " ++ toString (i + 1) ++ ": " ++ cause) ∈
      read_hdfs_logs none lines := List.getElem?_mem hout
  exact List.mem_filterMap.mpr ⟨_, hmem, rfl⟩

/-- C6: the `max_rows` cap truncates the line sequence before parsing (it
limits lines consumed, not records inserted), and a cap `m` with
`1 ≤ m < B` whose capped prefix yields `m` valid records produces exactly
one short final batch holding those `m` records. -/
theorem claim6_max_rows :
    (∀ (m : Nat) (lines : List (Except String String)),
      read_hdfs_logs (some m) lines = read_hdfs_logs none (lines.take m)) ∧
    (∀ (B m : Nat) (lines : List (Except String String)),
      1 ≤ m → m < B →
      (validRecords (read_hdfs_logs (some m) lines)).length = m →
      ∃ st, process B (some m) (fun _ => true) lines = Except.ok st ∧
        st.batches = [validRecords (read_hdfs_logs (some m) lines)] ∧
        st.totalInserted = m ∧ st.totalRead = m) := by
  constructor
  · exact read_hdfs_logs_take
  · intro B m lines h1 h2 h3
    refine ⟨_, process_allOk B (some m) lines, ?_, h3, h3⟩
    have hsmall : fullChunks B []
        (validRecords (read_hdfs_logs (some m) lines)) =
        ([], validRecords (read_hdfs_logs (some m) lines)) :=
      fullChunks_small B _ [] (by simp [h3]; omega)
    show chunkBatches B [] _ = _
    unfold chunkBatches
    rw [hsmall]
    have hne : (validRecords (read_hdfs_logs (some m) lines)).isEmpty = false := by
      rcases hv : validRecords (read_hdfs_logs (some m) lines) with _ | ⟨a, as⟩
      · rw [hv] at h3
        simp at h3
        omega
      · rfl
    simp [hne]

/-- Helper: the spec's concrete scenario shape — an input of three full
batches of one repeated valid record, with the sink failing on the second
insert call: the run aborts with `totalInserted = B`, batch 1 still
recorded, the failed batch still buffered, and the third batch's lines
never consumed. -/
theorem sink_failure_three_full_batches (B : Nat) (hB : 1 ≤ B) :
    process B none (fun i => decide (i ≠ 1)) (List.replicate (3 * B) (Except.ok goodLine)) =
      Except.error
        ({ batch := List.replicate B goodEntry
           totalInserted := B
           totalRead := 2 * B
           batches := [List.replicate B goodEntry]
           reported := [] },
          List.replicate B (Except.ok goodEntry)) := by
  unfold process
  dsimp only
  rw [read_hdfs_logs_replicate _ _ _ parse_goodLine]
  have h3 : (3 : Nat) * B = B + (B + B) := by ring
  rw [h3, List.replicate_add, List.replicate_add, runLoop_append,
    runLoop_fill B _ goodEntry B initState hB (by simp [initState])]
  rw [if_pos (show (fun i => decide (i ≠ 1)) initState.batches.length = true from rfl)]
  dsimp only
  rw [runLoop_append,
    runLoop_fill B _ goodEntry B _ hB (by simp)]
  rw [if_neg (show ¬ ((fun i => decide (i ≠ 1))
    ({ batch := ([] : List LogEntry)
       totalInserted := initState.totalInserted + B
       totalRead := initState.totalRead + B
       batches := initState.batches ++ [initState.batch ++ List.replicate B goodEntry]
       reported := initState.reported } : RunState).batches.length) = true by
    simp [initState])]
  dsimp only
  simp [initState]
  omega

theorem deserializeLogEntry_obj (fields : List (String × Json)) :
    deserializeLogEntry (Json.obj fields) =
      (match collectFields (none, none, none, none) fields with
        | Except.error m => Except.error m
        | Except.ok (some ts, some sev, some bod, some tid) =>
          Except.ok ⟨ts, sev, bod, tid⟩
        | Except.ok (none, _, _, _) => Except.error "missing field timestamp"
        | Except.ok (_, none, _, _) => Except.error "missing field severity_text"
        | Except.ok (_, _, none, _) => Except.error "missing field body"
        | Except.ok (_, _, _, none) => Except.error "missing field tenant_id") := rfl

/-- C7: the parser is a total function into a discriminated result. An
empty line is a parse error; an object carrying the four required fields
(with in-range integer values) plus arbitrary extra fields with other
names deserializes successfully with the extras ignored; an object in
which a required field name never occurs — including any casing or
spelling variation of it — is a parse error. -/
theorem claim7_parse_outcomes :
    (∃ msg, parseLogEntry "" = Except.error msg) ∧
    (∀ (ts tid : Int) (sev bod : String) (extra : List (String × Json)),
      -(2 ^ 63) ≤ ts → ts < 2 ^ 63 → -(2 ^ 31) ≤ tid → tid < 2 ^ 31 →
      (∀ p ∈ extra, p.1 ≠ "timestamp" ∧ p.1 ≠ "severity_text" ∧
        p.1 ≠ "body" ∧ p.1 ≠ "tenant_id") →
      deserializeLogEntry (Json.obj
        ([("timestamp", Json.num ts), ("severity_text", Json.str sev),
          ("body", Json.str bod), ("tenant_id", Json.num tid)] ++ extra)) =
        Except.ok ⟨ts, sev, bod, tid⟩) ∧
    (∀ (fields : List (String × Json)) (name : String),
      (name = "timestamp" ∨ name = "severity_text" ∨ name = "body" ∨
        name = "tenant_id") →
      (∀ p ∈ fields, p.1 ≠ name) →
      ∃ msg, deserializeLogEntry (Json.obj fields) = Except.error msg) := by
  refine ⟨⟨"unexpected end of input", rfl⟩, ?_, deserialize_missing⟩
  intro ts tid sev bod extra hts1 hts2 htid1 htid2 hextra
  rw [deserializeLogEntry_obj, collectFields_append,
    collectFields_base ts tid sev bod ⟨hts1, hts2⟩ ⟨htid1, htid2⟩]
  dsimp only
  rw [collectFields_unknown extra (some ts, some sev, some bod, some tid) hextra]

/-- C8 (counterexample): the claim calls the insert one multi-row
statement covering the whole batch, which would need one placeholder per
field per record (4·n); the SQL text built by `insert_hdfs_logs_batch`
always contains exactly 4 placeholders, so for a 2-record batch it is not
a whole-batch multi-row statement. -/
theorem claim8_counterexample :
    placeholderCount (insertSql "hdfs_logs") ≠
      4 * (insertParams [⟨1, "a", "b", 2⟩, ⟨3, "c", "d", 4⟩]).length := by
  decide

/-- C8 (amended): the sink builds a single-row parameterized INSERT (one
placeholder per column, 4 in total for any table name without `?`) and one
parameter tuple per record of the batch, fields bound positionally in
batch order; the statement is executed via `exec_batch` once per tuple, so
whole-batch single-statement atomicity is not what the code requests. -/
theorem claim8_amended (t : String) (logs : List LogEntry) (ht : '?' ∉ t.data) :
    placeholderCount (insertSql t) = 4 ∧
    (insertParams logs).length = logs.length ∧
    insertParams logs = logs.map
      (fun log => (log.timestamp, log.severity_text, log.body, log.tenant_id)) := by
  refine ⟨?_, by simp [insertParams], rfl⟩
  unfold placeholderCount insertSql
  rw [String.data_append, String.data_append, List.count_append, List.count_append,
    List.count_eq_zero.mpr ht]
  decide

theorem claim2_batch_shapes_witness :
    1 ≤ 2 ∧
    (∃ st, process 2 none (fun _ => true) [Except.ok goodLine] = Except.ok st ∧
      st.batches.length =
        ((validRecords (read_hdfs_logs none [Except.ok goodLine])).length + 2 - 1) / 2 ∧
      (∀ c ∈ st.batches.dropLast, c.length = 2) ∧
      (∀ c ∈ st.batches, 1 ≤ c.length ∧ c.length ≤ 2) ∧
      ((validRecords (read_hdfs_logs none [Except.ok goodLine])).length = 0 →
        st.batches = [] ∧ st.totalRead = 0 ∧ st.totalInserted = 0)) :=
  ⟨by decide, claim2_batch_shapes 2 none [Except.ok goodLine] (by decide)⟩

theorem claim4_parse_error_witness :
    ([Except.ok goodLine, Except.ok "not json"] :
        List (Except String String))[1]? = some (Except.ok "not json") ∧
    parseLogEntry "not json" = Except.error "invalid literal" ∧
    ((read_hdfs_logs none [Except.ok goodLine, Except.ok "not json"])[1]? =
      some (Except.error
        ("Error parsing JSON at line " ++ toString (1 + 1) ++ ": " ++ "invalid literal")) ∧
    ∃ st, process 10 none (fun _ => true) [Except.ok goodLine, Except.ok "not json"] =
        Except.ok st ∧
      ("Error parsing JSON at line " ++ toString (1 + 1) ++ ": " ++ "invalid literal")
        ∈ st.reported ∧
      st.batches.flatten =
        validRecords (read_hdfs_logs none [Except.ok goodLine, Except.ok "not json"])) :=
  ⟨rfl, rfl,
    claim4_parse_error 10 [Except.ok goodLine, Except.ok "not json"] 1 "not json"
      "invalid literal" rfl rfl⟩

theorem claim6_max_rows_witness :
    (read_hdfs_logs (some 1) [Except.ok goodLine, Except.ok goodLine] =
      read_hdfs_logs none ([Except.ok goodLine, Except.ok goodLine].take 1)) ∧
    1 ≤ 1 ∧ 1 < 10 ∧
    (validRecords (read_hdfs_logs (some 1)
      [Except.ok goodLine, Except.ok goodLine])).length = 1 ∧
    (∃ st, process 10 (some 1) (fun _ => true)
        [Except.ok goodLine, Except.ok goodLine] = Except.ok st ∧
      st.batches =
        [validRecords (read_hdfs_logs (some 1) [Except.ok goodLine, Except.ok goodLine])] ∧
      st.totalInserted = 1 ∧ st.totalRead = 1) :=
  ⟨claim6_max_rows.1 1 [Except.ok goodLine, Except.ok goodLine],
    by decide, by decide, rfl,
    claim6_max_rows.2 10 1 [Except.ok goodLine, Except.ok goodLine]
      (by decide) (by decide) rfl⟩

theorem claim7_parse_outcomes_witness :
    deserializeLogEntry (Json.obj
      ([("timestamp", Json.num 5), ("severity_text", Json.str "S"),
        ("body", Json.str "B"), ("tenant_id", Json.num 3)] ++
        [("Extra", Json.null)])) = Except.ok ⟨5, "S", "B", 3⟩ ∧
    ∃ msg, deserializeLogEntry (Json.obj
      [("Timestamp", Json.num 1), ("severity_text", Json.str "a"),
        ("body", Json.str "b"), ("tenant_id", Json.num 2)]) = Except.error msg :=
  ⟨claim7_parse_outcomes.2.1 5 3 "S" "B" [("Extra", Json.null)]
      (by decide) (by decide) (by decide) (by decide)
      (by
        intro p hp
        rw [List.mem_singleton] at hp
        subst hp
        exact ⟨by decide, by decide, by decide, by decide⟩),
    claim7_parse_outcomes.2.2
      [("Timestamp", Json.num 1), ("severity_text", Json.str "a"),
        ("body", Json.str "b"), ("tenant_id", Json.num 2)]
      "timestamp" (Or.inl rfl)
      (by
        intro p hp
        fin_cases hp <;> decide)⟩

theorem claim8_amended_witness :
    '?' ∉ "hdfs_logs".data ∧
    (placeholderCount (insertSql "hdfs_logs") = 4 ∧
      (insertParams [⟨1, "a", "b", 2⟩]).length = ([⟨1, "a", "b", 2⟩] : List LogEntry).length ∧
      insertParams [⟨1, "a", "b", 2⟩] = ([⟨1, "a", "b", 2⟩] : List LogEntry).map
        (fun log => (log.timestamp, log.severity_text, log.body, log.tenant_id))) :=
  ⟨by decide, claim8_amended "hdfs_logs" [⟨1, "a", "b", 2⟩] (by decide)⟩

theorem claim9_io_error_witness :
    ([Except.ok goodLine, Except.error "disk failure", Except.ok goodLine] :
        List (Except String String))[1]? = some (Except.error "disk failure") ∧
    ((read_hdfs_logs none
        [Except.ok goodLine, Except.error "disk failure", Except.ok goodLine])[1]? =
      some (Except.error
        ("Error reading line " ++ toString (1 + 1) ++ ": " ++ "disk failure")) ∧
    ∃ st, process 10 none (fun _ => true)
        [Except.ok goodLine, Except.error "disk failure", Except.ok goodLine] =
        Except.ok st ∧
      ("Error reading line " ++ toString (1 + 1) ++ ": " ++ "disk failure")
        ∈ st.reported ∧
      st.batches.flatten = validRecords (read_hdfs_logs none
        [Except.ok goodLine, Except.error "disk failure", Except.ok goodLine])) :=
  ⟨rfl,
    claim9_io_error 10 [Except.ok goodLine, Except.error "disk failure", Except.ok goodLine]
      1 "disk failure" rfl⟩

theorem claim10_nonempty_batches_witness :
    (∃ st, process 1 none (fun _ => true) [Except.ok goodLine] = Except.ok st ∧
      ∀ c ∈ st.batches, c ≠ []) ∧
    (∃ st, process 0 none (fun _ => true) [Except.ok goodLine] = Except.ok st ∧
      ∀ c ∈ st.batches, c.length = 1) ∧
    process 1 none (fun _ => false) [Except.ok goodLine] =
      Except.error (⟨[goodEntry], 0, 1, [], []⟩, []) ∧
    (⟨[goodEntry], 0, 1, [], []⟩ : RunState).batch ≠ [] :=
  ⟨claim10_nonempty_batches.1 1 none [Except.ok goodLine],
    claim10_nonempty_batches.2.1 none [Except.ok goodLine],
    rfl,
    claim10_nonempty_batches.2.2 1 none (fun _ => false) [Except.ok goodLine]
      ⟨[goodEntry], 0, 1, [], []⟩ [] rfl⟩

theorem sizeSum_append (xs ys : List (List LogEntry)) :
    sizeSum (xs ++ ys) = sizeSum xs + sizeSum ys := by
  simp [sizeSum]

/-- Loop invariant for an arbitrary sink, successful runs: the insert
counter always equals the sum of the confirmed batch sizes, every insert
call made so far succeeded, the buffer stays below capacity, and every
confirmed batch is exactly full. -/
theorem runLoop_ok_inv (B : Nat) (hB : 1 ≤ B) (sink : Nat → Bool) :
    ∀ (outs : List (Except String LogEntry)) (st0 st : RunState),
      runLoop B sink st0 outs = Except.ok st →
      st0.totalInserted = sizeSum st0.batches →
      (∀ i, i < st0.batches.length → sink i = true) →
      st0.batch.length < B →
      (∀ c ∈ st0.batches, c.length = B) →
      st.totalInserted = sizeSum st.batches ∧
      (∀ i, i < st.batches.length → sink i = true) ∧
      st.batch.length < B ∧
      (∀ c ∈ st.batches, c.length = B) := by
  intro outs
  induction outs with
  | nil =>
    intro st0 st h h1 h2 h3 h4
    have heq : st0 = st := Except.ok.inj h
    subst heq
    exact ⟨h1, h2, h3, h4⟩
  | cons r rs ih =>
    intro st0 st h h1 h2 h3 h4
    cases r with
    | error e =>
      have hstep : runLoop B sink st0 (Except.error e :: rs) =
          runLoop B sink { st0 with reported := st0.reported ++ [e] } rs := by
        simp [runLoop]
      rw [hstep] at h
      exact ih _ st h h1 h2 h3 h4
    | ok entry =>
      by_cases hf : B ≤ st0.batch.length + 1
      · by_cases hs : sink st0.batches.length
        · have hstep : runLoop B sink st0 (Except.ok entry :: rs) =
              runLoop B sink
                { batch := [],
                  totalInserted := st0.totalInserted + (st0.batch ++ [entry]).length,
                  totalRead := st0.totalRead + 1,
                  batches := st0.batches ++ [st0.batch ++ [entry]],
                  reported := st0.reported } rs := by
            simp [runLoop, hf, hs]
          rw [hstep] at h
          refine ih _ st h ?_ ?_ ?_ ?_
          · show st0.totalInserted + (st0.batch ++ [entry]).length =
              sizeSum (st0.batches ++ [st0.batch ++ [entry]])
            rw [sizeSum_append, h1, sizeSum_cons, sizeSum_nil]
            omega
          · intro i hi
            show sink i = true
            rw [List.length_append, List.length_cons, List.length_nil] at hi
            have hi2 : i < st0.batches.length ∨ i = st0.batches.length := by omega
            rcases hi2 with h' | h'
            · exact h2 i h'
            · rw [h']
              exact hs
          · show ([] : List LogEntry).length < B
            simpa using hB
          · intro c hc
            rcases List.mem_append.mp hc with h' | h'
            · exact h4 c h'
            · rw [List.mem_singleton] at h'
              rw [h']
              show (st0.batch ++ [entry]).length = B
              simp
              omega
        · have hstep : runLoop B sink st0 (Except.ok entry :: rs) =
              Except.error
                ({ st0 with
                    batch := st0.batch ++ [entry]
                    totalRead := st0.totalRead + 1 }, rs) := by
            simp [runLoop, hf, hs]
          rw [hstep] at h
          cases h
      · have hstep : runLoop B sink st0 (Except.ok entry :: rs) =
            runLoop B sink
              { st0 with
                batch := st0.batch ++ [entry]
                totalRead := st0.totalRead + 1 } rs := by
          simp [runLoop, hf]
        rw [hstep] at h
        refine ih _ st h h1 h2 ?_ h4
        show (st0.batch ++ [entry]).length < B
        simp
        omega

/-- Loop invariant for an arbitrary sink, failing runs: the error state
still satisfies the counter invariant, the confirmed batches are intact
(those the prior calls accepted, all exactly full), the failing call is
the one right after them, and the outcomes after the failure were never
consumed. -/
theorem runLoop_error_inv (B : Nat) (hB : 1 ≤ B) (sink : Nat → Bool) :
    ∀ (outs : List (Except String LogEntry)) (st0 st : RunState)
      (rem : List (Except String LogEntry)),
      runLoop B sink st0 outs = Except.error (st, rem) →
      st0.totalInserted = sizeSum st0.batches →
      (∀ i, i < st0.batches.length → sink i = true) →
      st0.batch.length < B →
      (∀ c ∈ st0.batches, c.length = B) →
      st.totalInserted = sizeSum st.batches ∧
      (∀ i, i < st.batches.length → sink i = true) ∧
      sink st.batches.length = false ∧
      (∀ c ∈ st.batches, c.length = B) ∧
      (∃ consumed, outs = consumed ++ rem) := by
  intro outs
  induction outs with
  | nil =>
    intro st0 st rem h
    cases h
  | cons r rs ih =>
    intro st0 st rem h h1 h2 h3 h4
    cases r with
    | error e =>
      have hstep : runLoop B sink st0 (Except.error e :: rs) =
          runLoop B sink { st0 with reported := st0.reported ++ [e] } rs := by
        simp [runLoop]
      rw [hstep] at h
      obtain ⟨c1, c2, c3, c4, consumed, hcons⟩ := ih _ st rem h h1 h2 h3 h4
      exact ⟨c1, c2, c3, c4, Except.error e :: consumed, by rw [hcons]; rfl⟩
    | ok entry =>
      by_cases hf : B ≤ st0.batch.length + 1
      · by_cases hs : sink st0.batches.length
        · have hstep : runLoop B sink st0 (Except.ok entry :: rs) =
              runLoop B sink
                { batch := [],
                  totalInserted := st0.totalInserted + (st0.batch ++ [entry]).length,
                  totalRead := st0.totalRead + 1,
                  batches := st0.batches ++ [st0.batch ++ [entry]],
                  reported := st0.reported } rs := by
            simp [runLoop, hf, hs]
          rw [hstep] at h
          have h1' : st0.totalInserted + (st0.batch ++ [entry]).length =
              sizeSum (st0.batches ++ [st0.batch ++ [entry]]) := by
            rw [sizeSum_append, h1, sizeSum_cons, sizeSum_nil]
            omega
          have h2' : ∀ i, i < (st0.batches ++ [st0.batch ++ [entry]]).length →
              sink i = true := by
            intro i hi
            rw [List.length_append, List.length_cons, List.length_nil] at hi
            have hi2 : i < st0.batches.length ∨ i = st0.batches.length := by omega
            rcases hi2 with h' | h'
            · exact h2 i h'
            · rw [h']
              exact hs
          have h3' : ([] : List LogEntry).length < B := by simpa using hB
          have h4' : ∀ c ∈ st0.batches ++ [st0.batch ++ [entry]], c.length = B := by
            intro c hc
            rcases List.mem_append.mp hc with h' | h'
            · exact h4 c h'
            · rw [List.mem_singleton] at h'
              rw [h']
              show (st0.batch ++ [entry]).length = B
              simp
              omega
          obtain ⟨c1, c2, c3, c4, consumed, hcons⟩ := ih _ st rem h h1' h2' h3' h4'
          exact ⟨c1, c2, c3, c4, Except.ok entry :: consumed, by rw [hcons]; rfl⟩
        · have hstep : runLoop B sink st0 (Except.ok entry :: rs) =
              Except.error
                ({ st0 with
                    batch := st0.batch ++ [entry]
                    totalRead := st0.totalRead + 1 }, rs) := by
            simp [runLoop, hf, hs]
          rw [hstep] at h
          have hpair := Except.error.inj h
          have hst : st = { st0 with
              batch := st0.batch ++ [entry]
              totalRead := st0.totalRead + 1 } := by
            rw [← (Prod.mk.injEq _ _ _ _).mp hpair |>.1]
          have hrem : rem = rs := by
            rw [← (Prod.mk.injEq _ _ _ _).mp hpair |>.2]
          subst hst
          subst hrem
          refine ⟨h1, h2, ?_, h4, [Except.ok entry], rfl⟩
          show sink st0.batches.length = false
          rw [Bool.eq_false_iff]
          intro hcontra
          exact hs hcontra
      · have hstep : runLoop B sink st0 (Except.ok entry :: rs) =
            runLoop B sink
              { st0 with
                batch := st0.batch ++ [entry]
                totalRead := st0.totalRead + 1 } rs := by
          simp [runLoop, hf]
        rw [hstep] at h
        have h3' : (st0.batch ++ [entry]).length < B := by
          simp
          omega
        obtain ⟨c1, c2, c3, c4, consumed, hcons⟩ := ih _ st rem h h1 h2 h3' h4
        exact ⟨c1, c2, c3, c4, Except.ok entry :: consumed, by rw [hcons]; rfl⟩

/-- C5: whenever the sink fails — any batch size B ≥ 1, any input, any
cap, any sink behavior, failure at any call — the run terminates
immediately with a fatal error whose state satisfies: `totalInserted`
equals the sum of the sizes of the confirmed batches (equivalently B times
their number; the failed batch's size is never added); every confirmed
batch is full and was accepted by an earlier sink call, and all of them
are still recorded (no rollback); the failing call is exactly the next
one (0-based index `st.batches.length`, i.e. 1-based batch k =
`st.batches.length + 1`); and the outcomes past the failure point were
never consumed. In particular, for 3 full batches of 50000 with a failure
on batch 2, `totalInserted = 50000`. -/
theorem claim5_sink_failure (B : Nat) (maxRows : Option Nat) (sink : Nat → Bool)
    (lines : List (Except String String)) (st : RunState)
    (rem : List (Except String LogEntry)) (hB : 1 ≤ B)
    (h : process B maxRows sink lines = Except.error (st, rem)) :
    (st.totalInserted = sizeSum st.batches ∧
      st.totalInserted = B * st.batches.length ∧
      (∀ c ∈ st.batches, c.length = B) ∧
      (∀ i, i < st.batches.length → sink i = true) ∧
      sink st.batches.length = false ∧
      (∃ consumed, read_hdfs_logs maxRows lines = consumed ++ rem)) ∧
    process 50000 none (fun i => decide (i ≠ 1))
      (List.replicate (3 * 50000) (Except.ok goodLine)) =
      Except.error
        ({ batch := List.replicate 50000 goodEntry
           totalInserted := 50000
           totalRead := 2 * 50000
           batches := [List.replicate 50000 goodEntry]
           reported := [] },
          List.replicate 50000 (Except.ok goodEntry)) := by
  constructor
  · unfold process at h
    dsimp only at h
    cases hrun : runLoop B sink initState (read_hdfs_logs maxRows lines) with
    | error f =>
      rw [hrun] at h
      dsimp only at h
      obtain ⟨st1, rem1⟩ := f
      have hpair := Except.error.inj h
      have hst : st1 = st := ((Prod.mk.injEq _ _ _ _).mp hpair).1
      have hrem : rem1 = rem := ((Prod.mk.injEq _ _ _ _).mp hpair).2
      subst hst
      subst hrem
      obtain ⟨c1, c2, c3, c4, consumed, hcons⟩ :=
        runLoop_error_inv B hB sink _ initState st1 rem1 hrun rfl
          (by intro i hi; simp [initState] at hi)
          (by simpa [initState] using hB)
          (by intro c hc; simp [initState] at hc)
      exact ⟨c1, by rw [c1, sizeSum_full B st1.batches c4], c4, c2, c3, consumed, hcons⟩
    | ok st1 =>
      rw [hrun] at h
      dsimp only at h
      by_cases he : st1.batch.isEmpty
      · rw [if_pos he] at h
        cases h
      · rw [if_neg he] at h
        by_cases hs : sink st1.batches.length
        · rw [if_pos hs] at h
          cases h
        · rw [if_neg hs] at h
          have hpair := Except.error.inj h
          have hst : st1 = st := ((Prod.mk.injEq _ _ _ _).mp hpair).1
          have hrem : ([] : List (Except String LogEntry)) = rem :=
            ((Prod.mk.injEq _ _ _ _).mp hpair).2
          subst hst
          obtain ⟨c1, c2, c3, c4⟩ :=
            runLoop_ok_inv B hB sink _ initState st1 hrun rfl
              (by intro i hi; simp [initState] at hi)
              (by simpa [initState] using hB)
              (by intro c hc; simp [initState] at hc)
          refine ⟨c1, by rw [c1, sizeSum_full B st1.batches c4], c4, c2, ?_, ?_⟩
          · show sink st1.batches.length = false
            rw [Bool.eq_false_iff]
            exact hs
          · exact ⟨read_hdfs_logs maxRows lines, by rw [← hrem]; simp⟩
  · exact sink_failure_three_full_batches 50000 (by norm_num)

theorem claim5_sink_failure_witness :
    1 ≤ 1 ∧
    process 1 none (fun _ => false) [Except.ok goodLine] =
      Except.error ((⟨[goodEntry], 0, 1, [], []⟩ : RunState), []) ∧
    (((⟨[goodEntry], 0, 1, [], []⟩ : RunState).totalInserted =
        sizeSum (⟨[goodEntry], 0, 1, [], []⟩ : RunState).batches ∧
      (⟨[goodEntry], 0, 1, [], []⟩ : RunState).totalInserted =
        1 * (⟨[goodEntry], 0, 1, [], []⟩ : RunState).batches.length ∧
      (∀ c ∈ (⟨[goodEntry], 0, 1, [], []⟩ : RunState).batches, c.length = 1) ∧
      (∀ i, i < (⟨[goodEntry], 0, 1, [], []⟩ : RunState).batches.length →
        (fun _ => false) i = true) ∧
      (fun _ => false) (⟨[goodEntry], 0, 1, [], []⟩ : RunState).batches.length = false ∧
      (∃ consumed, read_hdfs_logs none [Except.ok goodLine] =
        consumed ++ ([] : List (Except String LogEntry)))) ∧
    process 50000 none (fun i => decide (i ≠ 1))
      (List.replicate (3 * 50000) (Except.ok goodLine)) =
      Except.error
        ({ batch := List.replicate 50000 goodEntry
           totalInserted := 50000
           totalRead := 2 * 50000
           batches := [List.replicate 50000 goodEntry]
           reported := [] },
          List.replicate 50000 (Except.ok goodEntry))) :=
  ⟨by decide, rfl,
    claim5_sink_failure 1 none (fun _ => false) [Except.ok goodLine]
      ⟨[goodEntry], 0, 1, [], []⟩ [] (by decide) rfl⟩
